import Mathlib

/-!
Verification of the Load-Balancer coordination engine against its
natural-language specification.  The Python sources are shallowly embedded:
pure functions become Lean functions, per-object mutable state is passed
explicitly, exceptions become `Option`/`Except` results, and the behaviour of
an external database engine is abstracted as an outcome-valued function on
engine identifiers.
-/

set_option maxHeartbeats 1000000

/-! ## Statement classifier (`interceptor/query_parser.py`) -/

namespace SQLTypeParser

def DML_COMMANDS : List String := ["insert", "update", "delete"]

def DDL_COMMANDS : List String := ["create", "alter", "drop", "rename"]

def TX_COMMANDS : List String := ["begin", "commit", "rollback"]

def ADMIN_COMMANDS : List String := ["set", "use", "pragma"]

def PROC_COMMANDS : List String := ["call", "exec"]

/-- Characters treated as whitespace by Python's `str.strip()` / `str.split()`
(the ASCII range, which is all the classifier's keyword logic depends on). -/
def pyIsSpace (c : Char) : Bool :=
  c = ' ' || c = '\t' || c = '\n' || c = '\r' || c = '\x0b' || c = '\x0c'

/-- Single-pass scanner for the substitution `re.sub(r"--.*?$", "", sql,
flags=re.MULTILINE)` in `SQLTypeParser._clean_sql`.  The flag records whether
the scanner is inside a line comment; the regex consumes up to, not
including, the newline, and also matches at end of input. -/
def stripLineAux : List Char → Bool → List Char
  | [], _ => []
  | c :: rest, true =>
    if c = '\n' then c :: stripLineAux rest false else stripLineAux rest true
  | [c], false => [c]
  | c1 :: c2 :: rest, false =>
    if c1 = '-' ∧ c2 = '-' then stripLineAux rest true
    else c1 :: stripLineAux (c2 :: rest) false

def stripLineComments (cs : List Char) : List Char := stripLineAux cs false

/-- Single-pass scanner for `re.sub(r"/\*.*?\*/", "", sql, flags=re.DOTALL)`:
the leftmost `/*` pairs with the earliest following `*/`; with no closing
`*/` anywhere the regex matches nothing, so the dropped characters (kept
reversed in the accumulator) are restored at end of input. -/
def stripBlockAux : List Char → Option (List Char) → List Char
  | [], none => []
  | [], some acc => acc.reverse
  | [c], none => [c]
  | [c], some acc => (c :: acc).reverse
  | c1 :: c2 :: rest, none =>
    if c1 = '/' ∧ c2 = '*' then stripBlockAux rest (some ['*', '/'])
    else c1 :: stripBlockAux (c2 :: rest) none
  | c1 :: c2 :: rest, some acc =>
    if c1 = '*' ∧ c2 = '/' then stripBlockAux rest none
    else stripBlockAux (c2 :: rest) (some (c1 :: acc))

def stripBlockComments (cs : List Char) : List Char := stripBlockAux cs none

/-- Python `str.strip()`: drop whitespace from both ends. -/
def pyStrip (cs : List Char) : List Char :=
  ((cs.dropWhile pyIsSpace).reverse.dropWhile pyIsSpace).reverse

/-- Python `str.strip(";")`: drop semicolons from both ends. -/
def stripSemis (cs : List Char) : List Char :=
  ((cs.dropWhile (· = ';')).reverse.dropWhile (· = ';')).reverse

/-- `SQLTypeParser._clean_sql`: strip line comments, then block comments,
then surrounding whitespace, then lowercase. -/
def cleanSql (sql : String) : String :=
  ⟨(pyStrip (stripBlockComments (stripLineComments sql.data))).map Char.toLower⟩

/-- Python `str.split()`: split on whitespace runs, discarding empties. -/
def pyWordsAux : List Char → List Char → List String
  | [], acc => if acc.isEmpty then [] else [⟨acc.reverse⟩]
  | c :: rest, acc =>
    if pyIsSpace c then
      if acc.isEmpty then pyWordsAux rest [] else ⟨acc.reverse⟩ :: pyWordsAux rest []
    else pyWordsAux rest (c :: acc)

def pyWords (cs : List Char) : List String := pyWordsAux cs []

/-- Membership test for Python's `needle in haystack` on strings. -/
def listStartsWith : List Char → List Char → Bool
  | [], _ => true
  | _ :: _, [] => false
  | n :: ns, h :: hs => n = h && listStartsWith ns hs

def hasSub (needle : List Char) : List Char → Bool
  | [] => listStartsWith needle []
  | c :: t => listStartsWith needle (c :: t) || hasSub needle t

/-- The keyword dispatch chain of `SQLTypeParser.get_type`, applied to the
first whitespace-delimited token of the cleaned statement. -/
def keywordTag (first : String) (clean : String) : String :=
  if first = "select" then "SELECT"
  else if first ∈ DML_COMMANDS then "DML"
  else if first = "insert" ∧ hasSub "on conflict".data clean.data then "UPSERT"
  else if first = "merge" then "MERGE"
  else if first = "truncate" then "DDL"
  else if first ∈ DDL_COMMANDS then "DDL"
  else if first ∈ TX_COMMANDS then "TX"
  else if first ∈ PROC_COMMANDS then "PROCEDURE"
  else if first ∈ ADMIN_COMMANDS then "ADMIN"
  else "OTHER"

/-- `SQLTypeParser.get_type`.  `none` models the `IndexError` raised by
`clean.split()[0]` when the cleaned text holds no token; every normal return
is `some tag`.  The spec's WRITE tag is realised by the source as the string
`"DML"`. -/
def get_type (sql : String) : Option String :=
  if sql = "" then some "OTHER"
  else
    let clean := cleanSql sql
    if (stripSemis (pyStrip clean.data)).contains ';' then some "MULTI"
    else
      match pyWords clean.data with
      | [] => none
      | first :: _ => some (keywordTag first clean)

end SQLTypeParser

section ClassifierChecks

open SQLTypeParser

example : get_type "SELECT * FROM users" = some "SELECT" := by decide

example : get_type "insert into t values (1) on conflict do nothing" = some "DML" := by
  decide

example : get_type "merge into t using s" = some "MERGE" := by decide

example : get_type "-- comment" = none := by decide

example : get_type "select 1; select 2" = some "MULTI" := by decide

example : get_type "/* hi */ UPDATE t SET a = 1" = some "DML" := by decide

example : get_type "grant all" = some "OTHER" := by decide

end ClassifierChecks

/-- The complete set of first keywords listed by the spec's classification
table (§4.1): select; insert/update/delete; create/alter/drop/rename/
truncate; begin/commit/rollback; set/use/pragma; call/exec. -/
def specTableKeywords : List String :=
  ["select", "insert", "update", "delete",
   "create", "alter", "drop", "rename", "truncate",
   "begin", "commit", "rollback",
   "set", "use", "pragma",
   "call", "exec"]

/-- C6, counterexample: `merge` is not a keyword of the spec's table, so the
claim predicts tag OTHER, but the classifier has a reachable branch that
returns the tag MERGE for a first keyword `merge`. -/
theorem c6_counterexample :
    SQLTypeParser.get_type "merge into t using s" = some "MERGE" ∧
    some "MERGE" ≠ some "OTHER" ∧
    "merge" ∉ specTableKeywords := by decide

/-- C6 (amended): for a single statement (no remaining `;` separator) whose
cleaned text has first keyword `t`, the tag is WRITE (source string "DML")
whenever `t` is insert/update/delete — regardless of any upsert-style body
text, since the insert-specific UPSERT branch is unreachable — and any first
keyword outside the spec's table is tagged OTHER, except `merge`, which gets
the extra tag MERGE. -/
theorem c6_amended (sql t : String) (rest : List String)
    (hne : sql ≠ "")
    (hsingle : (SQLTypeParser.stripSemis
      (SQLTypeParser.pyStrip (SQLTypeParser.cleanSql sql).data)).contains ';' = false)
    (hw : SQLTypeParser.pyWords (SQLTypeParser.cleanSql sql).data = t :: rest) :
    (t ∈ SQLTypeParser.DML_COMMANDS → SQLTypeParser.get_type sql = some "DML") ∧
    (t = "merge" → SQLTypeParser.get_type sql = some "MERGE") ∧
    (t ∉ specTableKeywords → t ≠ "merge" →
      SQLTypeParser.get_type sql = some "OTHER") := by
  have hget : SQLTypeParser.get_type sql =
      some (SQLTypeParser.keywordTag t (SQLTypeParser.cleanSql sql)) := by
    unfold SQLTypeParser.get_type
    rw [if_neg hne]
    simp only [hsingle, Bool.false_eq_true, if_false, hw]
  refine ⟨?_, ?_, ?_⟩
  · intro hmem
    rw [hget]
    simp only [SQLTypeParser.DML_COMMANDS, List.mem_cons,
      List.not_mem_nil, or_false] at hmem
    rcases hmem with h | h | h <;> subst h <;> rfl
  · intro h
    subst h
    rw [hget]
    rfl
  · intro hnt hnm
    simp only [specTableKeywords, List.mem_cons, List.not_mem_nil, or_false,
      not_or] at hnt
    obtain ⟨h1, h2, h3, h4, h5, h6, h7, h8, h9, h10, h11, h12, h13, h14, h15,
      h16, h17⟩ := hnt
    rw [hget]
    simp [SQLTypeParser.keywordTag, SQLTypeParser.DML_COMMANDS,
      SQLTypeParser.DDL_COMMANDS, SQLTypeParser.TX_COMMANDS,
      SQLTypeParser.PROC_COMMANDS, SQLTypeParser.ADMIN_COMMANDS,
      h1, h2, h3, h4, h5, h6, h7, h8, h9, h10, h11, h12, h13, h14, h15, h16,
      h17, hnm]

/-- C6, witness for the amended theorem: an insert with upsert-style body
text is still tagged WRITE ("DML"). -/
theorem c6_witness :
    ("insert into t (a) values (1) on conflict do nothing" ≠ "") ∧
    SQLTypeParser.get_type "insert into t (a) values (1) on conflict do nothing" =
      some "DML" :=
  ⟨by decide,
   (c6_amended "insert into t (a) values (1) on conflict do nothing" "insert"
      ["into", "t", "(a)", "values", "(1)", "on", "conflict", "do", "nothing"]
      (by decide) (by decide) (by decide)).1 (by decide)⟩

/-- C10: a non-empty input consisting only of a comment makes `get_type`
raise an `IndexError` (modelled as `none`) instead of returning a tag, while
any input whose cleaned text still holds at least one token is classified. -/
theorem c10_totality :
    ("-- comment" ≠ "" ∧ SQLTypeParser.get_type "-- comment" = none) ∧
    ∀ sql : String,
      SQLTypeParser.pyWords (SQLTypeParser.cleanSql sql).data ≠ [] →
      (SQLTypeParser.get_type sql).isSome := by
  refine ⟨⟨by decide, by decide⟩, ?_⟩
  intro sql hw
  simp only [SQLTypeParser.get_type]
  split
  · simp
  · split
    · simp
    · split
      · next heq => exact absurd heq hw
      · simp

/-- C10, witness: a statement with a token after cleaning is classified. -/
theorem c10_witness :
    SQLTypeParser.pyWords (SQLTypeParser.cleanSql "select 1").data ≠ [] ∧
    (SQLTypeParser.get_type "select 1").isSome :=
  ⟨by decide, c10_totality.2 "select 1" (by decide)⟩

/-! ## Commands (`replication/commands.py`) -/

/-- Scalar parameter values carried by a command's field maps. -/
inductive SqlValue
  | str (s : String)
  | int (n : Int)
  | null
deriving DecidableEq, Repr

/-- A Python dict with string keys, modelled as an insertion-ordered
association list with distinct keys. -/
abbrev Dict := List (String × SqlValue)

/-- Python dict merge: keys of the first dict in order (taking the second
dict's value when the key occurs there too), then the second dict's keys not
present in the first. -/
def dictMerge (a b : Dict) : Dict :=
  (a.map fun kv => (kv.1, ((b.lookup kv.1).getD kv.2))) ++
    b.filter fun kv => (a.lookup kv.1).isNone

/-- Python `str.join`. -/
def pyJoin (sep : String) : List String → String
  | [] => ""
  | x :: xs => xs.foldl (fun acc y => acc ++ sep ++ y) x

/-- The `i=:i` placeholder fragment used by `Update.execute` and
`Delete.execute`. -/
def eqPlaceholder (k : String) : String := k ++ "=:" ++ k

/-- The tagged command record (`Insert`/`Update`/`Delete` subclasses of
`Command`). -/
inductive Command
  | insert (table : String) (values : Dict)
  | update (table : String) (set_values : Dict) (whereVals : Dict)
  | delete (table : String) (whereVals : Dict)
deriving DecidableEq, Repr

/-- The parameterised statement each `execute` method passes to
`conn.execute` inside an `engine.begin()` transaction. -/
def Command.buildStatement : Command → String × Dict
  | .insert table values =>
    ("INSERT INTO " ++ table ++ " (" ++ pyJoin ", " (values.map Prod.fst) ++
      ") VALUES (" ++ pyJoin ", " (values.map fun kv => ":" ++ kv.1) ++ ")",
     values)
  | .update table set_values whereVals =>
    ("UPDATE " ++ table ++ " SET " ++
      pyJoin ", " (set_values.map fun kv => eqPlaceholder kv.1) ++
      " WHERE " ++ pyJoin " AND " (whereVals.map fun kv => eqPlaceholder kv.1),
     dictMerge set_values whereVals)
  | .delete table whereVals =>
    ("DELETE FROM " ++ table ++ " WHERE " ++
      pyJoin " AND " (whereVals.map fun kv => eqPlaceholder kv.1),
     whereVals)

/-- Errors the spec's command layer can surface.  The source's `execute`
methods raise no validation error of their own; the constructor exists to
express the spec's `InvalidCommand` in claims about them. -/
inductive CmdError
  | invalidCommand
deriving DecidableEq, Repr

/-- `Update.execute`: builds the SET and WHERE fragments and the merged
parameter dict and unconditionally runs the statement; no overlap check is
performed, so the result is always `.ok`. -/
def Update.executeStmt (table : String) (set_values whereVals : Dict) :
    Except CmdError (String × Dict) :=
  .ok (Command.buildStatement (.update table set_values whereVals))

theorem lookup_eq_none_of_not_mem_keys (m : Dict) (k : String)
    (h : k ∉ m.map Prod.fst) : m.lookup k = none := by
  induction m with
  | nil => rfl
  | cons kv rest ih =>
    simp only [List.map_cons, List.mem_cons, not_or] at h
    rw [List.lookup_cons]
    have : (k == kv.1) = false := by
      simp [h.1]
    rw [this]
    exact ih h.2

theorem map_id_of_mem {α : Type} (l : List α) (f : α → α)
    (h : ∀ x ∈ l, f x = x) : l.map f = l := by
  induction l with
  | nil => rfl
  | cons x rest ih =>
    simp only [List.map_cons, h x (List.mem_cons_self x rest)]
    rw [ih fun y hy => h y (List.mem_cons_of_mem x hy)]

theorem dictMerge_of_disjoint (a b : Dict)
    (hd : ∀ k, k ∈ a.map Prod.fst → k ∉ b.map Prod.fst) :
    dictMerge a b = a ++ b := by
  unfold dictMerge
  have ha : (a.map fun kv => (kv.1, ((b.lookup kv.1).getD kv.2))) = a := by
    apply map_id_of_mem
    intro kv hkv
    have : b.lookup kv.1 = none :=
      lookup_eq_none_of_not_mem_keys b kv.1
        (hd kv.1 (List.mem_map_of_mem Prod.fst hkv))
    simp [this]
  have hb : (b.filter fun kv => (a.lookup kv.1).isNone) = b := by
    apply List.filter_eq_self.mpr
    intro kv hkv
    have hnb : kv.1 ∉ a.map Prod.fst := by
      intro hmem
      exact hd kv.1 hmem (List.mem_map_of_mem Prod.fst hkv)
    simp [lookup_eq_none_of_not_mem_keys a kv.1 hnb]
  rw [ha, hb]

/-- C9, counterexample: an `Update` whose `set` and `where` share the column
`id` does not fail with `InvalidCommand`; the statement is built (with the
colliding placeholder appearing on both sides) and executed, and in the
parameter map the `where` value silently overrides the `set` value. -/
theorem c9_counterexample :
    Update.executeStmt "users" [("id", .int 1)] [("id", .int 2)] =
      .ok ("UPDATE users SET id=:id WHERE id=:id", [("id", .int 2)]) ∧
    ∀ e : CmdError,
      Update.executeStmt "users" [("id", .int 1)] [("id", .int 2)] ≠
        .error e := by
  have h : Update.executeStmt "users" [("id", .int 1)] [("id", .int 2)] =
      .ok ("UPDATE users SET id=:id WHERE id=:id", [("id", .int 2)]) := rfl
  refine ⟨h, fun e he => ?_⟩
  rw [h] at he
  exact Except.noConfusion he

/-- C9 (amended): `Update.execute` performs no overlap check and always
executes; when `set` and `where` are disjoint the statement is
`UPDATE <table> SET k=:k, … WHERE w=:w AND …` with parameter map equal to
the union (concatenation) of `set` and `where`. -/
theorem c9_amended (table : String) (set_values whereVals : Dict)
    (hd : ∀ k, k ∈ set_values.map Prod.fst → k ∉ whereVals.map Prod.fst) :
    Update.executeStmt table set_values whereVals =
      .ok ("UPDATE " ++ table ++ " SET " ++
        pyJoin ", " (set_values.map fun kv => eqPlaceholder kv.1) ++
        " WHERE " ++
        pyJoin " AND " (whereVals.map fun kv => eqPlaceholder kv.1),
       set_values ++ whereVals) := by
  unfold Update.executeStmt
  rw [show Command.buildStatement (.update table set_values whereVals) =
      ("UPDATE " ++ table ++ " SET " ++
        pyJoin ", " (set_values.map fun kv => eqPlaceholder kv.1) ++
        " WHERE " ++
        pyJoin " AND " (whereVals.map fun kv => eqPlaceholder kv.1),
       dictMerge set_values whereVals) from rfl,
    dictMerge_of_disjoint set_values whereVals hd]

/-- C9, witness for the amended theorem at disjoint concrete maps. -/
theorem c9_witness :
    (∀ k, k ∈ ([("name", SqlValue.str "ANNA")] : Dict).map Prod.fst →
      k ∉ ([("id", SqlValue.int 5)] : Dict).map Prod.fst) ∧
    Update.executeStmt "users" [("name", .str "ANNA")] [("id", .int 5)] =
      .ok ("UPDATE users SET name=:name WHERE id=:id",
        [("name", .str "ANNA"), ("id", .int 5)]) := by
  constructor
  · decide
  · have h := c9_amended "users" [("name", .str "ANNA")] [("id", .int 5)]
      (by decide)
    simpa using h

/-! ## Command log (`replication/command_log.py`) -/

/-- A per-node command log: the in-memory sequence and the durable JSON
file's content (an absent file loads as the empty sequence, so the content
is modelled as the deserialised command list). -/
structure CommandLog where
  commands : List Command
  fileContent : List Command
deriving DecidableEq, Repr

/-- `CommandLog.add`: append then persist the full sequence. -/
def CommandLog.add (log : CommandLog) (c : Command) : CommandLog :=
  { commands := log.commands ++ [c], fileContent := log.commands ++ [c] }

/-- The replay loop body: run each command through the Backend Executor
(abstracted as a success predicate) until one fails; returns the commands
the executor observed, in order, and whether the whole sequence succeeded. -/
def runCommands (exec : Command → Bool) : List Command → List Command × Bool
  | [] => ([], true)
  | c :: cs =>
    if exec c then
      let r := runCommands exec cs
      (c :: r.1, r.2)
    else ([c], false)

/-- Outcome of `CommandLog.replay`: the executor-observed trace, the log
state afterwards, and whether the caller saw success (a raised replay error
propagates before any mutation of the log). -/
structure ReplayResult where
  observed : List Command
  log : CommandLog
  ok : Bool
deriving DecidableEq, Repr

/-- `CommandLog.replay`: execute every command in order; only after the
entire loop succeeds are the in-memory sequence cleared and the empty list
persisted.  A failure raises out of the loop, leaving both untouched. -/
def CommandLog.replay (log : CommandLog) (exec : Command → Bool) : ReplayResult :=
  let r := runCommands exec log.commands
  if r.2 then
    { observed := r.1, log := { commands := [], fileContent := [] }, ok := true }
  else
    { observed := r.1, log := log, ok := false }

theorem runCommands_all_ok (exec : Command → Bool) (cs : List Command)
    (h : ∀ c ∈ cs, exec c = true) : runCommands exec cs = (cs, true) := by
  induction cs with
  | nil => rfl
  | cons c rest ih =>
    simp only [runCommands, h c (List.mem_cons_self c rest), if_true]
    rw [ih fun d hd => h d (List.mem_cons_of_mem c hd)]

theorem runCommands_fails_at (exec : Command → Bool) (pre : List Command)
    (c : Command) (post : List Command)
    (hpre : ∀ d ∈ pre, exec d = true) (hc : exec c = false) :
    runCommands exec (pre ++ c :: post) = (pre ++ [c], false) := by
  induction pre with
  | nil => simp [runCommands, hc]
  | cons d rest ih =>
    simp only [List.cons_append, runCommands,
      hpre d (List.mem_cons_self d rest), if_true, List.append_eq]
    rw [ih fun e he => hpre e (List.mem_cons_of_mem d he)]

/-- C2, counterexample: replay of `[c1, c2]` where `c1` succeeds and `c2`
fails leaves the whole sequence `[c1, c2]` in the log — the successful
prefix is retained, not dropped as the claim states. -/
theorem c2_counterexample :
    (CommandLog.replay
      ⟨[Command.insert "users" [("name", .str "Alice")],
        Command.delete "users" [("id", .int 1)]],
       [Command.insert "users" [("name", .str "Alice")],
        Command.delete "users" [("id", .int 1)]]⟩
      (fun c => decide (c = Command.insert "users" [("name", .str "Alice")]))).log.commands =
      [Command.insert "users" [("name", .str "Alice")],
       Command.delete "users" [("id", .int 1)]] ∧
    ([Command.insert "users" [("name", .str "Alice")],
      Command.delete "users" [("id", .int 1)]] ≠
      [Command.delete "users" [("id", .int 1)]]) := by decide

/-- C2 (amended): replay executes the commands in append order; if every
command succeeds the in-memory sequence is cleared and the durable file
holds the empty list; if some command fails, replay reports an error, the
executor observed exactly the successful prefix followed by the failing
command, and the log (memory and file) afterwards still contains the entire
original sequence — nothing is dropped. -/
theorem c2_amended (exec : Command → Bool) (log : CommandLog) :
    ((∀ c ∈ log.commands, exec c = true) →
      (log.replay exec).observed = log.commands ∧
      (log.replay exec).log.commands = [] ∧
      (log.replay exec).log.fileContent = [] ∧
      (log.replay exec).ok = true) ∧
    (∀ pre c post, log.commands = pre ++ c :: post →
      (∀ d ∈ pre, exec d = true) → exec c = false →
      (log.replay exec).observed = pre ++ [c] ∧
      (log.replay exec).log = log ∧
      (log.replay exec).ok = false) := by
  constructor
  · intro h
    unfold CommandLog.replay
    rw [runCommands_all_ok exec log.commands h]
    exact ⟨rfl, rfl, rfl, rfl⟩
  · intro pre c post hsplit hpre hc
    unfold CommandLog.replay
    rw [hsplit, runCommands_fails_at exec pre c post hpre hc]
    exact ⟨rfl, rfl, rfl⟩

/-- C2, witness for the amended theorem: a fully successful replay drains
the log, and a replay failing on its second command retains both commands. -/
theorem c2_witness :
    (∀ c ∈ ([Command.delete "t" [("id", .int 7)]] : List Command),
      (fun _ : Command => true) c = true) ∧
    ((CommandLog.replay ⟨[Command.delete "t" [("id", .int 7)]],
        [Command.delete "t" [("id", .int 7)]]⟩ (fun _ => true)).observed =
      [Command.delete "t" [("id", .int 7)]] ∧
     (CommandLog.replay ⟨[Command.delete "t" [("id", .int 7)]],
        [Command.delete "t" [("id", .int 7)]]⟩ (fun _ => true)).log.commands = [] ∧
     (CommandLog.replay ⟨[Command.delete "t" [("id", .int 7)]],
        [Command.delete "t" [("id", .int 7)]]⟩ (fun _ => true)).log.fileContent = [] ∧
     (CommandLog.replay ⟨[Command.delete "t" [("id", .int 7)]],
        [Command.delete "t" [("id", .int 7)]]⟩ (fun _ => true)).ok = true) :=
  ⟨by decide,
   (c2_amended (fun _ => true)
      ⟨[Command.delete "t" [("id", .int 7)]],
       [Command.delete "t" [("id", .int 7)]]⟩).1 (by decide)⟩

/-! ## Node registry entries and selection strategies
(`load_balancer/node_info.py`, `load_balancer/strategies.py`) -/

/-- `NodeInfo`: a registry entry.  The backend engine object is abstracted
as a numeric identity; `total_time` is measured in abstract ticks. -/
structure NodeInfo where
  name : String
  engine : Nat
  enabled : Bool := true
  weight : Nat := 1
  total_time : Nat := 0
  query_count : Nat := 0
deriving DecidableEq, Repr

/-- `NodeInfo.record_execution`. -/
def NodeInfo.record_execution (n : NodeInfo) (elapsed : Nat) : NodeInfo :=
  { n with total_time := n.total_time + elapsed,
           query_count := n.query_count + 1 }

/-- How a `pick_node` call can fail: the deliberate `RuntimeError` on an
empty enabled list, or the `IndexError` from `enabled_nodes[self._index]`
when the persistent index is stale. -/
inductive PickErr
  | noNodes
  | indexOutOfRange
deriving DecidableEq, Repr

/-- `RoundRobinStrategy.pick_node`, with the persistent `self._index` passed
and returned explicitly. -/
def RoundRobinStrategy.pick_node (ns : List NodeInfo) (index : Nat) :
    Except PickErr (NodeInfo × Nat) :=
  if ns.isEmpty then .error .noNodes
  else if h : index < ns.length then
    .ok (ns.get ⟨index, h⟩, (index + 1) % ns.length)
  else .error .indexOutOfRange

/-- The persistent `(self._index, self._counter)` pair of
`WeightedRoundRobinStrategy`; both start at 0. -/
structure WRRState where
  index : Nat
  counter : Nat
deriving DecidableEq, Repr

/-- `WeightedRoundRobinStrategy.pick_node`: emit `enabled_nodes[index]`,
increment the counter, and advance the index (resetting the counter) once
the counter reaches the node's weight. -/
def WeightedRoundRobinStrategy.pick_node (ns : List NodeInfo) (s : WRRState) :
    Except PickErr (NodeInfo × WRRState) :=
  if ns.isEmpty then .error .noNodes
  else if h : s.index < ns.length then
    let node := ns.get ⟨s.index, h⟩
    if node.weight ≤ s.counter + 1 then
      .ok (node, ⟨(s.index + 1) % ns.length, 0⟩)
    else
      .ok (node, ⟨s.index, s.counter + 1⟩)
  else .error .indexOutOfRange

/-- C8: the strategies do not clamp a stale index.  After two picks over a
three-node list the round-robin index is 2; a third pick over a list that
shrank to two nodes dereferences `enabled_nodes[2]`, raising `IndexError`,
so the claimed in-range invariant fails at the moment of picking. -/
theorem c8_roundRobin_indexError :
    RoundRobinStrategy.pick_node
      [⟨"db1", 1, true, 1, 0, 0⟩, ⟨"db2", 2, true, 1, 0, 0⟩,
       ⟨"db3", 3, true, 1, 0, 0⟩] 0 =
      .ok (⟨"db1", 1, true, 1, 0, 0⟩, 1) ∧
    RoundRobinStrategy.pick_node
      [⟨"db1", 1, true, 1, 0, 0⟩, ⟨"db2", 2, true, 1, 0, 0⟩,
       ⟨"db3", 3, true, 1, 0, 0⟩] 1 =
      .ok (⟨"db2", 2, true, 1, 0, 0⟩, 2) ∧
    RoundRobinStrategy.pick_node
      [⟨"db1", 1, true, 1, 0, 0⟩, ⟨"db2", 2, true, 1, 0, 0⟩] 2 =
      .error .indexOutOfRange ∧
    ¬(2 < ([⟨"db1", 1, true, 1, 0, 0⟩,
            ⟨"db2", 2, true, 1, 0, 0⟩] : List NodeInfo).length) :=
  ⟨rfl, rfl, rfl, by decide⟩

/-! ### Weighted round-robin pick sequences -/

/-- The state after one `pick_node` call (errors leave the state unchanged,
matching Python, where the exception is raised before any mutation). -/
def wrrStep (ns : List NodeInfo) (s : WRRState) : WRRState :=
  match WeightedRoundRobinStrategy.pick_node ns s with
  | .ok (_, s2) => s2
  | .error _ => s

/-- The node a `pick_node` call emits from a given state. -/
def wrrPicked (ns : List NodeInfo) (s : WRRState) : Option NodeInfo :=
  match WeightedRoundRobinStrategy.pick_node ns s with
  | .ok (n, _) => some n
  | .error _ => none

/-- The strategy state after `t` picks starting from `s`. -/
def wrrStateFrom (ns : List NodeInfo) (s : WRRState) : Nat → WRRState
  | 0 => s
  | t + 1 => wrrStateFrom ns (wrrStep ns s) t

/-- The node emitted by pick number `t` (0-based) starting from `s`. -/
def wrrPickAt (ns : List NodeInfo) (s : WRRState) (t : Nat) : Option NodeInfo :=
  wrrPicked ns (wrrStateFrom ns s t)

/-- The list of the first `n` picks starting from `s`. -/
def wrrPicksFrom (ns : List NodeInfo) (s : WRRState) (n : Nat) :
    List (Option NodeInfo) :=
  (List.range n).map (wrrPickAt ns s)

theorem wrrStateFrom_add (ns : List NodeInfo) (s : WRRState) (a b : Nat) :
    wrrStateFrom ns s (a + b) = wrrStateFrom ns (wrrStateFrom ns s a) b := by
  induction a generalizing s with
  | zero => rw [Nat.zero_add]; rfl
  | succ a ih =>
    have h : a + 1 + b = (a + b) + 1 := by omega
    rw [h]
    show wrrStateFrom ns (wrrStep ns s) (a + b) = _
    rw [ih (wrrStep ns s)]
    rfl

theorem wrrPicksFrom_add (ns : List NodeInfo) (s : WRRState) (a b : Nat) :
    wrrPicksFrom ns s (a + b) =
      wrrPicksFrom ns s a ++ wrrPicksFrom ns (wrrStateFrom ns s a) b := by
  unfold wrrPicksFrom
  rw [List.range_add, List.map_append, List.map_map]
  congr 1
  apply List.map_congr_left
  intro j _
  show wrrPickAt ns s (a + j) = wrrPickAt ns (wrrStateFrom ns s a) j
  unfold wrrPickAt
  rw [wrrStateFrom_add]

theorem picksFrom_const (ns : List NodeInfo) (s : WRRState) (n : Nat)
    (x : Option NodeInfo) (h : ∀ t < n, wrrPickAt ns s t = x) :
    wrrPicksFrom ns s n = List.replicate n x := by
  refine List.eq_replicate_iff.mpr ⟨by simp [wrrPicksFrom], ?_⟩
  intro b hb
  unfold wrrPicksFrom at hb
  obtain ⟨j, hj, rfl⟩ := List.mem_map.mp hb
  exact h j (List.mem_range.mp hj)

/-- Within one weight block: from `(i, c)` with `c + d = weight`, the next
`d` picks all emit node `i` and the state then advances to `((i+1) % k, 0)`. -/
theorem wrr_block (ns : List NodeInfo) (i : Nat) (hi : i < ns.length) :
    ∀ d c, c + d = (ns.get ⟨i, hi⟩).weight → 1 ≤ d →
      wrrStateFrom ns ⟨i, c⟩ d = ⟨(i + 1) % ns.length, 0⟩ ∧
      ∀ t < d, wrrPickAt ns ⟨i, c⟩ t = some (ns.get ⟨i, hi⟩) := by
  have hemp : ns.isEmpty = false := by
    cases ns with
    | nil => exact absurd hi (by simp)
    | cons a l => rfl
  intro d
  induction d with
  | zero => intro c _ h1; exact absurd h1 (by omega)
  | succ d ih =>
    intro c hc _
    rcases Nat.eq_zero_or_pos d with h0 | hpos
    · subst h0
      have hpick : WeightedRoundRobinStrategy.pick_node ns ⟨i, c⟩ =
          .ok (ns.get ⟨i, hi⟩, ⟨(i + 1) % ns.length, 0⟩) := by
        unfold WeightedRoundRobinStrategy.pick_node
        rw [hemp]
        simp only [Bool.false_eq_true, if_false]
        rw [dif_pos hi]
        exact if_pos (by omega)
      constructor
      · show wrrStateFrom ns (wrrStep ns ⟨i, c⟩) 0 = _
        unfold wrrStep
        rw [hpick]
        rfl
      · intro t ht
        have : t = 0 := by omega
        subst this
        unfold wrrPickAt wrrStateFrom wrrPicked
        rw [hpick]
    · have hpick : WeightedRoundRobinStrategy.pick_node ns ⟨i, c⟩ =
          .ok (ns.get ⟨i, hi⟩, ⟨i, c + 1⟩) := by
        unfold WeightedRoundRobinStrategy.pick_node
        rw [hemp]
        simp only [Bool.false_eq_true, if_false]
        rw [dif_pos hi]
        exact if_neg (by omega)
      have hstep : wrrStep ns ⟨i, c⟩ = ⟨i, c + 1⟩ := by
        unfold wrrStep
        rw [hpick]
      obtain ⟨ihs, ihp⟩ := ih (c + 1) (by omega) hpos
      constructor
      · show wrrStateFrom ns (wrrStep ns ⟨i, c⟩) d = _
        rw [hstep]
        exact ihs
      · intro t ht
        cases t with
        | zero =>
          unfold wrrPickAt wrrStateFrom wrrPicked
          rw [hpick]
        | succ t' =>
          show wrrPicked ns (wrrStateFrom ns (wrrStep ns ⟨i, c⟩) t') = _
          rw [hstep]
          exact ihp t' (by omega)

/-- Sum of the weights of the `m` registry entries starting at position `i`. -/
def sumW (ns : List NodeInfo) (i m : Nat) : Nat :=
  (((ns.drop i).take m).map NodeInfo.weight).sum

theorem wrr_blocks (ns : List NodeInfo) (hw : ∀ n ∈ ns, 1 ≤ n.weight) :
    ∀ m i, i < ns.length → i + m ≤ ns.length →
      wrrStateFrom ns ⟨i, 0⟩ (sumW ns i m) =
        (if i + m = ns.length then ⟨0, 0⟩ else ⟨i + m, 0⟩) ∧
      wrrPicksFrom ns ⟨i, 0⟩ (sumW ns i m) =
        (((ns.drop i).take m).map fun n => List.replicate n.weight (some n)).flatten := by
  intro m
  induction m with
  | zero =>
    intro i hi _
    constructor
    · have h0 : sumW ns i 0 = 0 := by simp [sumW]
      rw [h0, if_neg (by omega)]
      rfl
    · have h0 : sumW ns i 0 = 0 := by simp [sumW]
      rw [h0]
      simp [wrrPicksFrom]
  | succ m ih =>
    intro i hi hle
    have hdrop : ns.drop i = ns.get ⟨i, hi⟩ :: ns.drop (i + 1) :=
      List.drop_eq_getElem_cons hi
    have htake : (ns.drop i).take (m + 1) =
        ns.get ⟨i, hi⟩ :: (ns.drop (i + 1)).take m := by
      rw [hdrop, List.take_succ_cons]
    have hsum : sumW ns i (m + 1) =
        (ns.get ⟨i, hi⟩).weight + sumW ns (i + 1) m := by
      unfold sumW
      rw [htake, List.map_cons, List.sum_cons]
    have hw1 : 1 ≤ (ns.get ⟨i, hi⟩).weight := hw _ (ns.get_mem i hi)
    obtain ⟨hbs, hbp⟩ :=
      wrr_block ns i hi (ns.get ⟨i, hi⟩).weight 0 (by omega) hw1
    have hfirst : wrrPicksFrom ns ⟨i, 0⟩ (ns.get ⟨i, hi⟩).weight =
        List.replicate (ns.get ⟨i, hi⟩).weight (some (ns.get ⟨i, hi⟩)) :=
      picksFrom_const ns ⟨i, 0⟩ _ _ hbp
    have hlen : 0 < ns.length := by omega
    rcases Nat.lt_or_ge (i + 1) ns.length with hi1 | hi1
    · have hmod : (i + 1) % ns.length = i + 1 := Nat.mod_eq_of_lt hi1
      obtain ⟨ihs, ihp⟩ := ih (i + 1) hi1 (by omega)
      constructor
      · rw [hsum, wrrStateFrom_add, hbs, hmod, ihs]
        by_cases hc : i + 1 + m = ns.length
        · rw [if_pos hc, if_pos (by omega)]
        · rw [if_neg hc, if_neg (by omega)]
          congr 1
          omega
      · rw [hsum, wrrPicksFrom_add, hbs, hmod, hfirst, ihp, htake,
          List.map_cons, List.flatten_cons]
    · have hieq : i + 1 = ns.length := by omega
      have hm0 : m = 0 := by omega
      subst hm0
      have hmod : (i + 1) % ns.length = 0 := by
        rw [hieq, Nat.mod_self]
      have hS0 : sumW ns (i + 1) 0 = 0 := by simp [sumW]
      constructor
      · rw [hsum, hS0, wrrStateFrom_add, hbs, hmod, if_pos (by omega)]
        rfl
      · rw [hsum, hS0, wrrPicksFrom_add, hbs, hfirst, htake, List.map_cons,
          List.flatten_cons]
        have : wrrPicksFrom ns ⟨(i + 1) % ns.length, 0⟩ 0 = [] := by
          simp [wrrPicksFrom]
        rw [this]
        simp

theorem count_join_sum {α : Type} [BEq α] (L : List (List α)) (x : α) :
    (L.flatten).count x = (L.map fun l => l.count x).sum := by
  induction L with
  | nil => rfl
  | cons l rest ih => simp [List.flatten_cons, List.count_append, ih]

theorem sum_map_ite_of_nodup {α : Type} [DecidableEq α] (l : List α)
    (hl : l.Nodup) (e : α) (he : e ∈ l) (f : α → Nat) :
    (l.map fun n => if n = e then f n else 0).sum = f e := by
  induction l with
  | nil => simp at he
  | cons a rest ih =>
    rw [List.map_cons, List.sum_cons]
    by_cases hae : a = e
    · rw [if_pos hae]
      have hz : (rest.map fun n => if n = e then f n else 0).sum = 0 := by
        apply List.sum_eq_zero
        intro y hy
        obtain ⟨n, hn, rfl⟩ := List.mem_map.mp hy
        rw [if_neg]
        intro hne
        exact (List.nodup_cons.mp hl).1 ((hne.trans hae.symm) ▸ hn)
      rw [hz, hae]
      omega
    · have hre : e ∈ rest := by
        rcases List.mem_cons.mp he with h | h
        · exact absurd h.symm hae
        · exact h
      rw [if_neg hae, ih (List.nodup_cons.mp hl).2 hre]
      omega

theorem periodic_window_count {α : Type} [BEq α] (f : Nat → α) (W : Nat)
    (hper : ∀ t, f (t + W) = f t) (x : α) :
    ∀ t, (((List.range W).map fun j => f (t + j)).count x) =
      ((List.range W).map f).count x := by
  intro t
  induction t with
  | zero => simp
  | succ t ih =>
    have hshift : ((List.range W).map fun j => f (t + (j + 1))) =
        ((List.range W).map fun j => f (t + 1 + j)) := by
      apply List.map_congr_left
      intro j _
      congr 1
      omega
    have h1 : (((List.range (W + 1)).map fun j => f (t + j)).count x) =
        (((List.range W).map fun j => f (t + j)).count x) +
          (if f (t + W) == x then 1 else 0) := by
      rw [List.range_succ, List.map_append, List.count_append]
      simp [List.count_cons]
    have h2 : (((List.range (W + 1)).map fun j => f (t + j)).count x) =
        (((List.range W).map fun j => f (t + 1 + j)).count x) +
          (if f (t + 0) == x then 1 else 0) := by
      rw [List.range_succ_eq_map, List.map_cons, List.count_cons, List.map_map]
      have hcomp : ((fun j => f (t + j)) ∘ Nat.succ) = fun j => f (t + 1 + j) := by
        funext j
        show f (t + (j + 1)) = f (t + 1 + j)
        congr 1
        omega
      rw [hcomp]
    have hfx : (if f (t + W) == x then 1 else 0) =
        (if f (t + 0) == x then 1 else 0) := by
      rw [hper t]
      simp
    rw [← ih]
    omega

/-- C4: over a stable non-empty enabled list with positive weights, the
weighted round-robin pick sequence from the initial state `(0, 0)` is
periodic with period `W = Σ weight`; its canonical period emits each node
`weight` times consecutively in registry order; and every window of `W`
consecutive picks contains each node exactly `weight` times. -/
theorem c4_weighted_round_robin (ns : List NodeInfo)
    (hne : ns ≠ []) (hw : ∀ n ∈ ns, 1 ≤ n.weight) (hnd : ns.Nodup) :
    (∀ t, wrrPickAt ns ⟨0, 0⟩ (t + (ns.map NodeInfo.weight).sum) =
        wrrPickAt ns ⟨0, 0⟩ t) ∧
    wrrPicksFrom ns ⟨0, 0⟩ ((ns.map NodeInfo.weight).sum) =
      (ns.map fun n => List.replicate n.weight (some n)).flatten ∧
    ∀ t j, ∀ hj : j < ns.length,
      ((List.range ((ns.map NodeInfo.weight).sum)).map
          fun u => wrrPickAt ns ⟨0, 0⟩ (t + u)).count (some (ns.get ⟨j, hj⟩)) =
        (ns.get ⟨j, hj⟩).weight := by
  have hlen : 0 < ns.length := List.length_pos.mpr hne
  have hWsum : sumW ns 0 ns.length = (ns.map NodeInfo.weight).sum := by
    simp [sumW]
  obtain ⟨hbs, hbp⟩ := wrr_blocks ns hw ns.length 0 hlen (by omega)
  rw [if_pos (by omega)] at hbs
  have hdt : (ns.drop 0).take ns.length = ns := by simp
  rw [hdt] at hbp
  rw [hWsum] at hbs hbp
  have hper : ∀ t,
      wrrPickAt ns ⟨0, 0⟩ (t + (ns.map NodeInfo.weight).sum) =
        wrrPickAt ns ⟨0, 0⟩ t := by
    intro t
    unfold wrrPickAt
    rw [Nat.add_comm, wrrStateFrom_add, hbs]
  refine ⟨hper, hbp, ?_⟩
  intro t j hj
  rw [periodic_window_count (wrrPickAt ns ⟨0, 0⟩) ((ns.map NodeInfo.weight).sum)
    hper (some (ns.get ⟨j, hj⟩)) t]
  have hlist : ((List.range ((ns.map NodeInfo.weight).sum)).map
      (wrrPickAt ns ⟨0, 0⟩)) =
      wrrPicksFrom ns ⟨0, 0⟩ ((ns.map NodeInfo.weight).sum) := rfl
  rw [hlist, hbp, count_join_sum, List.map_map]
  have hmap : ns.map ((fun l => l.count (some (ns.get ⟨j, hj⟩))) ∘
      (fun n => List.replicate n.weight (some n))) =
      ns.map (fun n => if n = ns.get ⟨j, hj⟩ then n.weight else 0) := by
    apply List.map_congr_left
    intro n _
    show (List.replicate n.weight (some n)).count (some (ns.get ⟨j, hj⟩)) = _
    by_cases hn : n = ns.get ⟨j, hj⟩
    · simp [List.count_replicate, hn]
    · simp [List.count_replicate, hn]
  rw [hmap, sum_map_ite_of_nodup ns hnd _ (ns.get_mem j hj)]

/-- C4, witness: three nodes with weights 3, 1, 1 (the spec's S1 scenario);
the canonical period of length 5 is db1, db1, db1, db2, db3. -/
theorem c4_witness :
    (([⟨"db1", 1, true, 3, 0, 0⟩, ⟨"db2", 2, true, 1, 0, 0⟩,
       ⟨"db3", 3, true, 1, 0, 0⟩] : List NodeInfo) ≠ [] ∧
     (∀ n ∈ ([⟨"db1", 1, true, 3, 0, 0⟩, ⟨"db2", 2, true, 1, 0, 0⟩,
       ⟨"db3", 3, true, 1, 0, 0⟩] : List NodeInfo), 1 ≤ n.weight) ∧
     ([⟨"db1", 1, true, 3, 0, 0⟩, ⟨"db2", 2, true, 1, 0, 0⟩,
       ⟨"db3", 3, true, 1, 0, 0⟩] : List NodeInfo).Nodup) ∧
    wrrPicksFrom [⟨"db1", 1, true, 3, 0, 0⟩, ⟨"db2", 2, true, 1, 0, 0⟩,
        ⟨"db3", 3, true, 1, 0, 0⟩] ⟨0, 0⟩
      (([⟨"db1", 1, true, 3, 0, 0⟩, ⟨"db2", 2, true, 1, 0, 0⟩,
        ⟨"db3", 3, true, 1, 0, 0⟩] : List NodeInfo).map NodeInfo.weight).sum =
      (([⟨"db1", 1, true, 3, 0, 0⟩, ⟨"db2", 2, true, 1, 0, 0⟩,
        ⟨"db3", 3, true, 1, 0, 0⟩] : List NodeInfo).map
          fun n => List.replicate n.weight (some n)).flatten :=
  ⟨⟨by decide, by decide, by decide⟩,
   (c4_weighted_round_robin _ (by decide) (by decide) (by decide)).2.1⟩

example :
    wrrPicksFrom [⟨"db1", 1, true, 3, 0, 0⟩, ⟨"db2", 2, true, 1, 0, 0⟩,
        ⟨"db3", 3, true, 1, 0, 0⟩] ⟨0, 0⟩ 5 =
      [some ⟨"db1", 1, true, 3, 0, 0⟩, some ⟨"db1", 1, true, 3, 0, 0⟩,
       some ⟨"db1", 1, true, 3, 0, 0⟩, some ⟨"db2", 2, true, 1, 0, 0⟩,
       some ⟨"db3", 3, true, 1, 0, 0⟩] := by decide

/-! ## Health checker (`monitoring/health_checker.py`) -/

/-- Python dict assignment `m[k] = v`: update in place preserving order, or
append when the key is new. -/
def dictSet {β : Type} : List (String × β) → String → β → List (String × β)
  | [], k, v => [(k, v)]
  | (k0, v0) :: rest, k, v =>
    if k0 = k then (k0, v) :: rest else (k0, v0) :: dictSet rest k v

theorem lookup_dictSet {β : Type} (m : List (String × β)) (k k' : String)
    (v : β) :
    (dictSet m k v).lookup k' = if k' = k then some v else m.lookup k' := by
  induction m with
  | nil =>
    by_cases h : k' = k
    · simp [dictSet, List.lookup, h]
    · have hb : (k' == k) = false := beq_eq_false_iff_ne.mpr h
      simp [dictSet, List.lookup, hb, h]
  | cons kv rest ih =>
    obtain ⟨k0, v0⟩ := kv
    by_cases h0 : k0 = k
    · subst h0
      by_cases h' : k' = k0
      · simp [dictSet, List.lookup, h']
      · have hb : (k' == k0) = false := beq_eq_false_iff_ne.mpr h'
        simp [dictSet, List.lookup, hb, h']
    · rw [show dictSet ((k0, v0) :: rest) k v =
          (k0, v0) :: dictSet rest k v by simp [dictSet, h0]]
      by_cases h' : k' = k0
      · subst h'
        rw [if_neg h0]
        simp [List.lookup]
      · have hb : (k' == k0) = false := beq_eq_false_iff_ne.mpr h'
        simp [List.lookup, hb, ih]

theorem dictSet_self {β : Type} (m : List (String × β)) (k : String) (v : β)
    (h : m.lookup k = some v) : dictSet m k v = m := by
  induction m with
  | nil => simp [List.lookup] at h
  | cons kv rest ih =>
    obtain ⟨k0, v0⟩ := kv
    by_cases h0 : k0 = k
    · subst h0
      have hv : v0 = v := by simpa [List.lookup] using h
      subst hv
      simp [dictSet]
    · have hne : k ≠ k0 := fun hh => h0 hh.symm
      have hb : (k == k0) = false := beq_eq_false_iff_ne.mpr hne
      have hr : rest.lookup k = some v := by
        simpa [List.lookup, hb] using h
      simp [dictSet, h0, ih hr]

/-- `HealthChecker` state: the engines dict (name → engine identity, in dict
insertion order) and the `last_status` dict. -/
structure HealthChecker where
  engines : List (String × Nat)
  last_status : List (String × String)
deriving DecidableEq, Repr

/-- The constructor: `last_status = {name: "UNKNOWN" for name in engines}`. -/
def HealthChecker.init (engines : List (String × Nat)) : HealthChecker :=
  { engines := engines, last_status := engines.map fun p => (p.1, "UNKNOWN") }

/-- The loop of `HealthChecker.run_check` over `engines.items()`, threading
`last_status` and accumulating the notified events in emission order.  The
ping result for each engine is supplied by the environment; `none` models
the `KeyError` on a `last_status` lookup for an unregistered name (the
constructor makes that unreachable). -/
def runCheckAux (ping : Nat → Bool) :
    List (String × Nat) → List (String × String) →
    Option (List (String × String) × List (String × String))
  | [], last => some (last, [])
  | (name, eng) :: rest, last =>
    let new_status := if ping eng then "UP" else "DOWN"
    match last.lookup name with
    | none => none
    | some old =>
      match runCheckAux ping rest (dictSet last name new_status) with
      | none => none
      | some (last2, evs) =>
        some (last2, (if new_status ≠ old then [(name, new_status)] else []) ++ evs)

/-- `HealthChecker.run_check`, returning the updated checker and the events
emitted on the bus, in order. -/
def HealthChecker.run_check (hc : HealthChecker) (ping : Nat → Bool) :
    Option (HealthChecker × List (String × String)) :=
  (runCheckAux ping hc.engines hc.last_status).map
    fun r => ({ hc with last_status := r.1 }, r.2)

theorem find?_eq_none_of_not_mem {β : Type} (l : List (String × β))
    (k : String) (h : k ∉ l.map Prod.fst) :
    l.find? (fun q => q.1 == k) = none := by
  induction l with
  | nil => rfl
  | cons a rest ih =>
    simp only [List.map_cons, List.mem_cons, not_or] at h
    have hb : (a.1 == k) = false :=
      beq_eq_false_iff_ne.mpr fun he => h.1 he.symm
    rw [List.find?_cons_of_neg _ (by simp [hb]), ih h.2]

theorem find?_self_of_nodup {β : Type} (l : List (String × β))
    (hnd : (l.map Prod.fst).Nodup) (p : String × β) (hp : p ∈ l) :
    l.find? (fun q => q.1 == p.1) = some p := by
  induction l with
  | nil => simp at hp
  | cons a rest ih =>
    rcases List.mem_cons.mp hp with rfl | hpr
    · rw [List.find?_cons_of_pos _ (by simp)]
    · have ha : a.1 ∉ rest.map Prod.fst := (List.nodup_cons.mp hnd).1
      have hne : a.1 ≠ p.1 := by
        intro he
        exact ha (he ▸ List.mem_map_of_mem Prod.fst hpr)
      have hb : (a.1 == p.1) = false := beq_eq_false_iff_ne.mpr hne
      rw [List.find?_cons_of_neg _ (by simp [hb]),
        ih (List.nodup_cons.mp hnd).2 hpr]

/-- The candidate status `run_check` computes for an engine. -/
def candStatus (ping : Nat → Bool) (eng : Nat) : String :=
  if ping eng then "UP" else "DOWN"

theorem runCheckAux_spec (ping : Nat → Bool) :
    ∀ (engines : List (String × Nat)) (last : List (String × String)),
      (engines.map Prod.fst).Nodup →
      (∀ p ∈ engines, (last.lookup p.1).isSome) →
      ∃ last2 evs, runCheckAux ping engines last = some (last2, evs) ∧
        (∀ nm, last2.lookup nm =
          (match engines.find? (fun q => q.1 == nm) with
           | some q => some (candStatus ping q.2)
           | none => last.lookup nm)) ∧
        (∀ p ∈ engines, evs.countP (fun ev => ev.1 == p.1) =
          (if last.lookup p.1 = some (candStatus ping p.2) then 0 else 1)) ∧
        (∀ ev ∈ evs, ev.1 ∈ engines.map Prod.fst) ∧
        ((∀ p ∈ engines, last.lookup p.1 = some (candStatus ping p.2)) →
          last2 = last ∧ evs = []) := by
  intro engines
  induction engines with
  | nil =>
    intro last _ _
    exact ⟨last, [], rfl, fun nm => rfl, fun p hp => absurd hp (by simp),
      fun ev hev => absurd hev (by simp), fun _ => ⟨rfl, rfl⟩⟩
  | cons he rest ih =>
    intro last hnd hk
    obtain ⟨name, eng⟩ := he
    obtain ⟨old, hold⟩ := Option.isSome_iff_exists.mp
      (hk (name, eng) (List.mem_cons_self _ _))
    have hnamenotin : name ∉ rest.map Prod.fst := (List.nodup_cons.mp hnd).1
    have hndr : (rest.map Prod.fst).Nodup := (List.nodup_cons.mp hnd).2
    have hkr : ∀ p ∈ rest,
        (((dictSet last name (candStatus ping eng)).lookup p.1).isSome) := by
      intro p hp
      rw [lookup_dictSet]
      by_cases hpn : p.1 = name
      · simp [hpn]
      · rw [if_neg hpn]
        exact hk p (List.mem_cons_of_mem _ hp)
    obtain ⟨last2, evs, haux, hlook, hcount, hmem, hid⟩ :=
      ih (dictSet last name (candStatus ping eng)) hndr hkr
    have hauxcons : runCheckAux ping ((name, eng) :: rest) last =
        some (last2,
          (if candStatus ping eng ≠ old then [(name, candStatus ping eng)]
           else []) ++ evs) := by
      show (match last.lookup name with
        | none => none
        | some old =>
          match runCheckAux ping rest (dictSet last name
              (if ping eng then "UP" else "DOWN")) with
          | none => none
          | some (last2, evs) =>
            some (last2, (if (if ping eng then "UP" else "DOWN") ≠ old then
                [(name, if ping eng then "UP" else "DOWN")] else []) ++ evs)) = _
      rw [show (List.lookup name last) = some old from hold]
      rw [show dictSet last name (if ping eng then "UP" else "DOWN") =
        dictSet last name (candStatus ping eng) from rfl]
      rw [haux]
      rfl
    refine ⟨last2, _, hauxcons, ?_, ?_, ?_, ?_⟩
    · intro nm
      rw [hlook nm]
      by_cases hnm : nm = name
      · subst hnm
        rw [find?_eq_none_of_not_mem rest nm hnamenotin,
          List.find?_cons_of_pos _ (by simp)]
        simp [lookup_dictSet]
      · have hb : (name == nm) = false :=
          beq_eq_false_iff_ne.mpr fun he => hnm he.symm
        rw [List.find?_cons_of_neg _ (by simp [hb])]
        cases hf : rest.find? fun q => q.1 == nm with
        | some q => rfl
        | none =>
          rw [lookup_dictSet, if_neg hnm]
    · intro p hp
      rcases List.mem_cons.mp hp with rfl | hpr
      · show ((if candStatus ping eng ≠ old then [(name, candStatus ping eng)]
            else []) ++ evs).countP (fun ev => ev.1 == name) =
          (if last.lookup name = some (candStatus ping eng) then 0 else 1)
        have hz : evs.countP (fun ev => ev.1 == name) = 0 := by
          rw [List.countP_eq_zero]
          intro ev hev
          have hin := hmem ev hev
          simp only [beq_iff_eq]
          intro heq
          exact hnamenotin (heq ▸ hin)
        rw [List.countP_append, hz, Nat.add_zero, hold]
        by_cases hch : candStatus ping eng = old
        · rw [if_neg (by simp [hch]), if_pos (by rw [hch])]
          rfl
        · rw [if_pos hch,
            if_neg (fun hh => hch (Option.some_inj.mp hh).symm)]
          simp
      · have hp1 : p.1 ∈ rest.map Prod.fst := List.mem_map_of_mem Prod.fst hpr
        have hne : name ≠ p.1 := fun he => hnamenotin (he ▸ hp1)
        have hz : (if candStatus ping eng ≠ old then
            [(name, candStatus ping eng)] else []).countP
              (fun ev => ev.1 == p.1) = 0 := by
          by_cases hch : candStatus ping eng ≠ old
          · rw [if_pos hch]
            simp [beq_eq_false_iff_ne.mpr hne]
          · rw [if_neg hch]
            rfl
        have hlk : (dictSet last name (candStatus ping eng)).lookup p.1 =
            last.lookup p.1 := by
          rw [lookup_dictSet, if_neg fun hh => hne hh.symm]
        rw [List.countP_append, hz, Nat.zero_add, hcount p hpr, hlk]
    · intro ev hev
      rcases List.mem_append.mp hev with h1 | h2
      · by_cases hch : candStatus ping eng ≠ old
        · rw [if_pos hch] at h1
          rcases List.mem_singleton.mp h1 with rfl
          simp
        · rw [if_neg hch] at h1
          exact absurd h1 (by simp)
      · exact List.mem_cons_of_mem _ (hmem ev h2)
    · intro hall
      have hcand : candStatus ping eng = old := by
        have hthis := hall (name, eng) (List.mem_cons_self _ _)
        rw [show List.lookup (name, eng).1 last = some old from hold] at hthis
        exact (Option.some_inj.mp hthis).symm
      have hds : dictSet last name (candStatus ping eng) = last := by
        rw [hcand]
        exact dictSet_self last name old hold
      have hallr : ∀ p ∈ rest,
          ((dictSet last name (candStatus ping eng)).lookup p.1) =
            some (candStatus ping p.2) := by
        intro p hp
        rw [hds]
        exact hall p (List.mem_cons_of_mem _ hp)
      obtain ⟨hl2, hev⟩ := hid hallr
      refine ⟨by rw [hl2, hds], ?_⟩
      rw [hev, if_neg (by simp [hcand])]
      rfl

/-- C7: `run_check` emits a status event for a node exactly when the probe's
candidate status differs from that node's last recorded status — at most one
event per node per run — and a second `run_check` with identical probe
results emits no event at all. -/
theorem c7_transition_events (hc : HealthChecker) (ping : Nat → Bool)
    (hnd : (hc.engines.map Prod.fst).Nodup)
    (hk : ∀ p ∈ hc.engines, ((hc.last_status.lookup p.1).isSome)) :
    ∃ hc2 evs, hc.run_check ping = some (hc2, evs) ∧
      (∀ p ∈ hc.engines,
        evs.countP (fun ev => ev.1 == p.1) =
          (if hc.last_status.lookup p.1 = some (candStatus ping p.2)
           then 0 else 1)) ∧
      hc2.run_check ping = some (hc2, []) := by
  obtain ⟨last2, evs, haux, hlook, hcount, hmem, hid⟩ :=
    runCheckAux_spec ping hc.engines hc.last_status hnd hk
  refine ⟨{ hc with last_status := last2 }, evs, ?_, hcount, ?_⟩
  · unfold HealthChecker.run_check
    rw [haux]
    rfl
  · have hall : ∀ p ∈ hc.engines,
        last2.lookup p.1 = some (candStatus ping p.2) := by
      intro p hp
      rw [hlook p.1, find?_self_of_nodup hc.engines hnd p hp]
    obtain ⟨last3, evs3, haux3, hlook3, hcount3, hmem3, hid3⟩ :=
      runCheckAux_spec ping hc.engines last2 hnd
        (fun p hp => by rw [hall p hp]; rfl)
    obtain ⟨hl3, he3⟩ := hid3 hall
    show (runCheckAux ping hc.engines last2).map _ = _
    rw [haux3, hl3, he3]
    rfl

/-- C7, witness: two monitored nodes, one probe succeeding and one failing;
both change from UNKNOWN, so exactly one event each, and a repeated check is
silent. -/
theorem c7_witness :
    ((((HealthChecker.init [("db1", 1), ("db2", 2)]).engines.map
        Prod.fst).Nodup) ∧
     (∀ p ∈ (HealthChecker.init [("db1", 1), ("db2", 2)]).engines,
        (((HealthChecker.init
            [("db1", 1), ("db2", 2)]).last_status.lookup p.1).isSome))) ∧
    (∃ hc2 evs, (HealthChecker.init [("db1", 1), ("db2", 2)]).run_check
        (fun e => e == 1) = some (hc2, evs) ∧
      (∀ p ∈ (HealthChecker.init [("db1", 1), ("db2", 2)]).engines,
        evs.countP (fun ev => ev.1 == p.1) =
          (if (HealthChecker.init
              [("db1", 1), ("db2", 2)]).last_status.lookup p.1 =
              some (candStatus (fun e => e == 1) p.2) then 0 else 1)) ∧
      hc2.run_check (fun e => e == 1) = some (hc2, [])) :=
  ⟨⟨by decide, by decide⟩, c7_transition_events _ _ (by decide) (by decide)⟩

example :
    (HealthChecker.init [("db1", 1), ("db2", 2)]).run_check (fun e => e == 1) =
      some (⟨[("db1", 1), ("db2", 2)], [("db1", "UP"), ("db2", "DOWN")]⟩,
        [("db1", "UP"), ("db2", "DOWN")]) := by decide

/-! ## Failover and recovery observers
(`monitoring/failover_manager.py`, `replication/recovery_manager.py`,
with the enable/disable flag table of `load_balancer/load_balancer.py`) -/

/-- The load balancer's node table as the observers touch it: name →
enabled flag.  `enable_node` / `disable_node` set the flag and are no-ops
for unknown names. -/
structure LoadBalancerState where
  nodes : List (String × Bool)
deriving DecidableEq, Repr

def LoadBalancerState.disable_node (lb : LoadBalancerState) (name : String) :
    LoadBalancerState :=
  if (lb.nodes.lookup name).isSome then ⟨dictSet lb.nodes name false⟩ else lb

def LoadBalancerState.enable_node (lb : LoadBalancerState) (name : String) :
    LoadBalancerState :=
  if (lb.nodes.lookup name).isSome then ⟨dictSet lb.nodes name true⟩ else lb

/-- A status event dict `{"db": …, "status": …}`. -/
structure StatusEvent where
  db : String
  status : String
deriving DecidableEq, Repr

/-- `FailoverManager.update`: disable on DOWN; on UP only a message is
printed (enabling is the recovery observer's job). -/
def FailoverManager.update (lb : LoadBalancerState) (event : StatusEvent) :
    LoadBalancerState :=
  if event.status = "DOWN" then lb.disable_node event.db else lb

/-- `RecoveryManager` state: the engines dict, the per-node command logs,
and the optional load balancer. -/
structure RecoveryManager where
  engines : List (String × Nat)
  command_logs : List (String × CommandLog)
  load_balancer : Option LoadBalancerState
deriving DecidableEq, Repr

/-- `RecoveryManager.update`: on UP, look up the node's log and engine
(returning unchanged when either is missing), replay the log against the
engine — any replay failure is caught and leaves everything unchanged — and
only on success enable the node in the load balancer (when one was given).
Per-command execution outcomes are supplied by the environment `execF`. -/
def RecoveryManager.update (rm : RecoveryManager)
    (execF : Nat → Command → Bool) (event : StatusEvent) : RecoveryManager :=
  if event.status = "UP" then
    match rm.command_logs.lookup event.db with
    | none => rm
    | some log =>
      match rm.engines.lookup event.db with
      | none => rm
      | some eng =>
        let r := log.replay (execF eng)
        if r.ok then
          { rm with
            command_logs := dictSet rm.command_logs event.db r.log,
            load_balancer := rm.load_balancer.map (·.enable_node event.db) }
        else rm
  else rm

/-- C3: the failover observer is a no-op on UP, and the recovery observer
changes nothing on a missing log, a missing engine, or a failed replay;
only a replay that completes without error enables the node, so a disabled
node becomes routable only through a successful replay of its log. -/
theorem c3_down_until_replay :
    (∀ lb db, FailoverManager.update lb ⟨db, "UP"⟩ = lb) ∧
    (∀ (rm : RecoveryManager) (execF : Nat → Command → Bool) (db : String),
      (rm.command_logs.lookup db = none →
        rm.update execF ⟨db, "UP"⟩ = rm) ∧
      (∀ log, rm.command_logs.lookup db = some log →
        rm.engines.lookup db = none → rm.update execF ⟨db, "UP"⟩ = rm) ∧
      (∀ log eng, rm.command_logs.lookup db = some log →
        rm.engines.lookup db = some eng →
        (log.replay (execF eng)).ok = false →
        rm.update execF ⟨db, "UP"⟩ = rm) ∧
      (∀ log eng, rm.command_logs.lookup db = some log →
        rm.engines.lookup db = some eng →
        (log.replay (execF eng)).ok = true →
        (rm.update execF ⟨db, "UP"⟩).load_balancer =
          rm.load_balancer.map (·.enable_node db) ∧
        (rm.update execF ⟨db, "UP"⟩).command_logs =
          dictSet rm.command_logs db (log.replay (execF eng)).log)) ∧
    (∀ (rm : RecoveryManager) (execF : Nat → Command → Bool) (db : String)
        (lb lb2 : LoadBalancerState),
      rm.load_balancer = some lb →
      (rm.update execF ⟨db, "UP"⟩).load_balancer = some lb2 →
      lb2.nodes.lookup db = some true →
      lb.nodes.lookup db = some true ∨
        (∃ log eng, rm.command_logs.lookup db = some log ∧
          rm.engines.lookup db = some eng ∧
          (log.replay (execF eng)).ok = true)) := by
  refine ⟨?_, ?_, ?_⟩
  · intro lb db
    simp [FailoverManager.update]
  · intro rm execF db
    refine ⟨?_, ?_, ?_, ?_⟩
    · intro hlog
      simp [RecoveryManager.update, hlog]
    · intro log hlog heng
      simp [RecoveryManager.update, hlog, heng]
    · intro log eng hlog heng hok
      simp [RecoveryManager.update, hlog, heng, hok]
    · intro log eng hlog heng hok
      constructor
      · simp [RecoveryManager.update, hlog, heng, hok]
      · simp [RecoveryManager.update, hlog, heng, hok]
  · intro rm execF db lb lb2 hlb hlb2 hen2
    cases hlog : rm.command_logs.lookup db with
    | none =>
      left
      have : rm.update execF ⟨db, "UP"⟩ = rm := by
        simp [RecoveryManager.update, hlog]
      rw [this, hlb] at hlb2
      cases Option.some_inj.mp hlb2
      exact hen2
    | some log =>
      cases heng : rm.engines.lookup db with
      | none =>
        left
        have : rm.update execF ⟨db, "UP"⟩ = rm := by
          simp [RecoveryManager.update, hlog, heng]
        rw [this, hlb] at hlb2
        cases Option.some_inj.mp hlb2
        exact hen2
      | some eng =>
        cases hok : (log.replay (execF eng)).ok with
        | false =>
          left
          have : rm.update execF ⟨db, "UP"⟩ = rm := by
            simp [RecoveryManager.update, hlog, heng, hok]
          rw [this, hlb] at hlb2
          cases Option.some_inj.mp hlb2
          exact hen2
        | true =>
          right
          exact ⟨log, eng, by simp [hlog], by simp [heng], hok⟩

/-- C3, witness: a disabled node with a one-command log and a succeeding
engine is enabled after its UP event. -/
theorem c3_witness :
    (RecoveryManager.update
      ⟨[("db3", 3)],
       [("db3", ⟨[Command.insert "users" [("name", .str "Alice")]],
                 [Command.insert "users" [("name", .str "Alice")]]⟩)],
       some ⟨[("db3", false)]⟩⟩
      (fun _ _ => true) ⟨"db3", "UP"⟩).load_balancer =
      (some (⟨[("db3", false)]⟩ : LoadBalancerState)).map
        (·.enable_node "db3") :=
  ((c3_down_until_replay.2.1
    ⟨[("db3", 3)],
     [("db3", ⟨[Command.insert "users" [("name", .str "Alice")]],
               [Command.insert "users" [("name", .str "Alice")]]⟩)],
     some ⟨[("db3", false)]⟩⟩
    (fun _ _ => true) "db3").2.2.2
    ⟨[Command.insert "users" [("name", .str "Alice")]],
     [Command.insert "users" [("name", .str "Alice")]]⟩ 3
    (by decide) (by decide) (by decide)).1

example :
    (RecoveryManager.update
      ⟨[("db3", 3)],
       [("db3", ⟨[Command.insert "users" [("name", .str "Alice")]],
                 [Command.insert "users" [("name", .str "Alice")]]⟩)],
       some ⟨[("db3", false)]⟩⟩
      (fun _ _ => true) ⟨"db3", "UP"⟩).load_balancer =
      some ⟨[("db3", true)]⟩ := by decide

/-! ## Broadcast write paths (`connection/proxy_engine.py`) -/

/-- One row of a result set. -/
abbrev Row := List (String × SqlValue)

/-- The outcome of executing the statement on a backend connection: a row
set, an `OperationalError`, or some other exception. -/
inductive ExecOutcome
  | ok (rows : List Row)
  | opErr
  | otherErr
deriving DecidableEq, Repr

/-- Rows the Tx proxy extracts from a connection's result (a `None` result
or an extraction failure gives `[]`). -/
def txRowsOf (execR : Nat → ExecOutcome) (conn : Nat) : List Row :=
  match execR conn with
  | .ok rows => rows
  | _ => []

/-- The `except OperationalError` arm of `ProxyTxConnection.execute`: the
Command is appended only when the connection's node name is truthy and has
a Command Log and a Command was supplied; everything else only logs a
message. -/
def txLogStep (command : Option Command) (logs : List (String × CommandLog))
    (nodeName : Option String) (out : ExecOutcome) :
    List (String × CommandLog) :=
  match out with
  | .opErr =>
    match nodeName with
    | some nm =>
      match command, logs.lookup nm with
      | some c, some log =>
        if nm ≠ "" then dictSet logs nm (log.add c) else logs
      | _, _ => logs
    | none => logs
  | _ => logs

/-- The loop of `ProxyTxConnection.execute` over the open connections:
every connection is executed in order regardless of earlier failures.  The
first component returned is the trace of connections on which execution was
attempted, in order. -/
def txExecuteAux (execR : Nat → ExecOutcome) (command : Option Command) :
    List (Nat × Option String) → List (String × CommandLog) →
    List Nat × List (String × CommandLog)
  | [], logs => ([], logs)
  | c :: rest, logs =>
    let logs1 := txLogStep command logs c.2 (execR c.1)
    let r := txExecuteAux execR command rest logs1
    (c.1 :: r.1, r.2)

/-- `ProxyTxConnection.execute`: run the statement on every connection,
journal per-node operational failures, and return the first connection's
rows (`first_rows or []`). -/
def ProxyTxConnection.execute (execR : Nat → ExecOutcome)
    (conns : List (Nat × Option String)) (command : Option Command)
    (logs : List (String × CommandLog)) :
    List Nat × List (String × CommandLog) × List Row :=
  let r := txExecuteAux execR command conns logs
  (r.1, r.2,
    match conns with
    | [] => []
    | c0 :: _ => txRowsOf execR c0.1)

theorem txLogStep_lookup_ne (command : Option Command)
    (logs : List (String × CommandLog)) (nodeName : Option String)
    (out : ExecOutcome) (nm : String) (h : nodeName ≠ some nm) :
    (txLogStep command logs nodeName out).lookup nm = logs.lookup nm := by
  cases out with
  | ok rows => rfl
  | otherErr => rfl
  | opErr =>
    cases nodeName with
    | none => rfl
    | some nm2 =>
      have hne : nm2 ≠ nm := fun he => h (by rw [he])
      cases command with
      | none => rfl
      | some c =>
        cases hl : logs.lookup nm2 with
        | none => simp [txLogStep, hl]
        | some log =>
          by_cases h2 : nm2 = ""
          · subst h2
            simp [txLogStep, hl]
          · simp [txLogStep, hl, h2, lookup_dictSet, Ne.symm hne]

theorem txExecuteAux_lookup_ne (execR : Nat → ExecOutcome)
    (command : Option Command) :
    ∀ (conns : List (Nat × Option String)) (logs : List (String × CommandLog))
      (nm : String), (∀ q ∈ conns, q.2 ≠ some nm) →
      (txExecuteAux execR command conns logs).2.lookup nm = logs.lookup nm := by
  intro conns
  induction conns with
  | nil => intro logs nm _; rfl
  | cons c rest ih =>
    intro logs nm h
    show (txExecuteAux execR command rest
      (txLogStep command logs c.2 (execR c.1))).2.lookup nm = _
    rw [ih _ nm fun q hq => h q (List.mem_cons_of_mem c hq),
      txLogStep_lookup_ne _ _ _ _ _ (h c (List.mem_cons_self c rest))]

theorem txExecuteAux_trace (execR : Nat → ExecOutcome)
    (command : Option Command) :
    ∀ (conns : List (Nat × Option String)) (logs : List (String × CommandLog)),
      (txExecuteAux execR command conns logs).1 = conns.map Prod.fst := by
  intro conns
  induction conns with
  | nil => intro logs; rfl
  | cons c rest ih =>
    intro logs
    show c.1 :: (txExecuteAux execR command rest _).1 = _
    rw [ih]
    rfl

theorem txLogStep_opErr_hit (cmd : Command)
    (logs : List (String × CommandLog)) (nm : String) (log : CommandLog)
    (hlog : logs.lookup nm = some log) (hnm : nm ≠ "") :
    txLogStep (some cmd) logs (some nm) .opErr =
      dictSet logs nm (log.add cmd) := by
  simp [txLogStep, hlog, hnm]

theorem txAux_journal (execR : Nat → ExecOutcome) (cmd : Command) (c : Nat)
    (nm : String) (hop : execR c = .opErr) (hnm : nm ≠ "") :
    ∀ (pre post : List (Nat × Option String))
      (logs : List (String × CommandLog)) (log : CommandLog),
      logs.lookup nm = some log →
      (∀ q ∈ pre, q.2 ≠ some nm) → (∀ q ∈ post, q.2 ≠ some nm) →
      (txExecuteAux execR (some cmd)
        (pre ++ (c, some nm) :: post) logs).2.lookup nm =
        some (log.add cmd) := by
  intro pre
  induction pre with
  | nil =>
    intro post logs log hlog _ hpost
    show (txExecuteAux execR (some cmd) post
      (txLogStep (some cmd) logs (some nm) (execR c))).2.lookup nm = _
    rw [txExecuteAux_lookup_ne execR (some cmd) post _ nm hpost, hop,
      txLogStep_opErr_hit cmd logs nm log hlog hnm, lookup_dictSet,
      if_pos rfl]
  | cons q pre ih =>
    intro post logs log hlog hpre hpost
    show (txExecuteAux execR (some cmd) (pre ++ (c, some nm) :: post)
      (txLogStep (some cmd) logs q.2 (execR q.1))).2.lookup nm = _
    have hq : q.2 ≠ some nm := hpre q (List.mem_cons_self q pre)
    have hlog1 : (txLogStep (some cmd) logs q.2 (execR q.1)).lookup nm =
        some log := by
      rw [txLogStep_lookup_ne _ _ _ _ _ hq, hlog]
    exact ih post _ log hlog1
      (fun r hr => hpre r (List.mem_cons_of_mem q hr)) hpost

/-- C1 (amended): in the transactional broadcast, a per-node failure does
not prevent execution on the remaining connections — the execution trace is
always the full connection list — and when a node's execution raises an
operational error, the node has a known non-empty name with a Command Log,
and the caller supplied a Command, that Command is appended to that node's
log.  In the plain (autocommit) DML broadcast, by contrast, a node failure
propagates and aborts the loop (see the counterexample theorem). -/
theorem c1_amended (execR : Nat → ExecOutcome) (command : Option Command)
    (conns : List (Nat × Option String)) (logs : List (String × CommandLog)) :
    (ProxyTxConnection.execute execR conns command logs).1 =
      conns.map Prod.fst ∧
    (∀ pre c nm post log cmd, conns = pre ++ (c, some nm) :: post →
      execR c = .opErr → nm ≠ "" →
      logs.lookup nm = some log → command = some cmd →
      (∀ q ∈ pre, q.2 ≠ some nm) → (∀ q ∈ post, q.2 ≠ some nm) →
      ((ProxyTxConnection.execute execR conns command logs).2.1).lookup nm =
        some (log.add cmd)) := by
  constructor
  · exact txExecuteAux_trace execR command conns logs
  · intro pre c nm post log cmd hsplit hop hnm hlog hcmd hpre hpost
    subst hsplit
    subst hcmd
    exact txAux_journal execR cmd c nm hop hnm pre post logs log hlog
      hpre hpost

/-- The broadcast loop of `ProxyConnection.execute` on a DML statement,
for the enabled engines after the first: each execution runs inside
`engine.begin()` with no per-engine exception handling, so a raising engine
ends the loop.  Returns the attempted engines and whether all succeeded. -/
def dmlExecRest (execR : Nat → ExecOutcome) : List Nat → List Nat × Bool
  | [] => ([], true)
  | e :: rest =>
    match execR e with
    | .ok _ =>
      let r := dmlExecRest execR rest
      (e :: r.1, r.2)
    | _ => ([e], false)

/-- The journaling of the caller-supplied Command to each disabled node's
Command Log at the end of the DML branch (a missing log raises `KeyError`,
swallowed by the bare `except`). -/
def journalDisabled (command : Option Command) (disabled : List String)
    (logs : List (String × CommandLog)) : List (String × CommandLog) :=
  match command with
  | none => logs
  | some c =>
    disabled.foldl (fun acc nm =>
      match acc.lookup nm with
      | some log => dictSet acc nm (log.add c)
      | none => acc) logs

/-- The DML branch of `ProxyConnection.execute`: broadcast over the enabled
engines in registry order, one transaction per engine; an exception from
any engine propagates out of the call (`.error ()`), skipping both the
remaining engines and the disabled-node journaling; on success the first
engine's rows are returned and the Command is journaled to the disabled
nodes.  Returns (attempted engines, command logs, result). -/
def ProxyConnection.executeDML (execR : Nat → ExecOutcome)
    (enabled : List Nat) (disabled : List String) (command : Option Command)
    (logs : List (String × CommandLog)) :
    List Nat × List (String × CommandLog) × Except Unit (List Row) :=
  match enabled with
  | [] => ([], journalDisabled command disabled logs, .ok [])
  | e0 :: rest =>
    match execR e0 with
    | .ok rows0 =>
      let r := dmlExecRest execR rest
      if r.2 then
        (e0 :: r.1, journalDisabled command disabled logs, .ok rows0)
      else (e0 :: r.1, logs, .error ())
    | _ => ([e0], logs, .error ())

/-- C1, counterexample: in the plain DML broadcast over enabled engines
`[1, 2]`, an operational failure on engine 1 (owned by node `n1`, which has
a Command Log) propagates: engine 2 is never executed and nothing is
appended to `n1`'s log, contradicting the claim that every other enabled
node is still visited and the supplied Command is appended to the failing
node's log. -/
theorem c1_counterexample :
    ProxyConnection.executeDML
      (fun e => if e = 1 then .opErr else .ok [[("id", .int 1)]])
      [1, 2] []
      (some (Command.insert "users" [("name", .str "Alice")]))
      [("n1", ⟨[], []⟩)] =
      ([1], [("n1", ⟨[], []⟩)], .error ()) ∧
    (2 : Nat) ∉ [1] ∧
    ([("n1", (⟨[], []⟩ : CommandLog))].lookup "n1" =
      some (⟨[], []⟩ : CommandLog)) :=
  ⟨rfl, by decide, rfl⟩

/-- C1, witness for the amended theorem: two transactional connections, the
first failing operationally; both are executed and the Command lands in the
failing node's log. -/
theorem c1_witness :
    (ProxyTxConnection.execute
      (fun e => if e = 1 then .opErr else .ok [[("id", .int 1)]])
      [(1, some "n1"), (2, some "n2")]
      (some (Command.insert "users" [("name", .str "Alice")]))
      [("n1", ⟨[], []⟩), ("n2", ⟨[], []⟩)]).1 = [1, 2] ∧
    ((ProxyTxConnection.execute
      (fun e => if e = 1 then .opErr else .ok [[("id", .int 1)]])
      [(1, some "n1"), (2, some "n2")]
      (some (Command.insert "users" [("name", .str "Alice")]))
      [("n1", ⟨[], []⟩), ("n2", ⟨[], []⟩)]).2.1).lookup "n1" =
      some ((⟨[], []⟩ : CommandLog).add
        (Command.insert "users" [("name", .str "Alice")])) :=
  ⟨(c1_amended (fun e => if e = 1 then .opErr else .ok [[("id", .int 1)]])
      (some (Command.insert "users" [("name", .str "Alice")]))
      [(1, some "n1"), (2, some "n2")]
      [("n1", ⟨[], []⟩), ("n2", ⟨[], []⟩)]).1,
   (c1_amended (fun e => if e = 1 then .opErr else .ok [[("id", .int 1)]])
      (some (Command.insert "users" [("name", .str "Alice")]))
      [(1, some "n1"), (2, some "n2")]
      [("n1", ⟨[], []⟩), ("n2", ⟨[], []⟩)]).2
     [] 1 "n1" [(2, some "n2")] ⟨[], []⟩
     (Command.insert "users" [("name", .str "Alice")])
     rfl (by decide) (by decide) rfl rfl (by decide) (by decide)⟩

/-! ## Read path (`connection/proxy_engine.py`, SELECT branch) -/

/-- The outcome of acquiring a connection from an engine
(`engine.connect()`). -/
inductive ConnOutcome
  | ok
  | opErr
  | otherErr
deriving DecidableEq, Repr

/-- The `tried` set: the name of the first registry node whose engine is
the routed target engine. -/
def triedName (nodes : List NodeInfo) (target : Nat) : Option String :=
  (nodes.find? fun n => n.engine == target).map NodeInfo.name

/-- The SELECT retry loop: iterate all registry nodes in order, skipping
the already-tried node and disabled nodes; for each candidate, connect and
execute inside a `try` whose bare `except` continues on any failure; the
first success wins. -/
def retryLoop (connectR : Nat → ConnOutcome) (execR : Nat → ExecOutcome)
    (tried : Option String) : List NodeInfo → Option (NodeInfo × List Row)
  | [] => none
  | n :: rest =>
    if tried = some n.name ∨ n.enabled = false then
      retryLoop connectR execR tried rest
    else
      match connectR n.engine, execR n.engine with
      | .ok, .ok rows => some (n, rows)
      | _, _ => retryLoop connectR execR tried rest

/-- What a SELECT call can produce: a served result with the name of the
serving node, `NoAvailableNodesError(op)`, or a propagated non-operational
exception. -/
inductive SelectOutcome
  | served (rows : List Row) (servedBy : Option String)
  | noAvailable (op : String)
  | raisedOther
deriving DecidableEq, Repr

/-- A SELECT call's outcome together with the registry entries afterwards
(so latency recording is observable). -/
structure SelectResult where
  outcome : SelectOutcome
  nodes : List NodeInfo
deriving DecidableEq, Repr

/-- `node.record_execution(elapsed)` applied to the first registry node
owning the given engine. -/
def recordOn (nodes : List NodeInfo) (eng : Nat) (elapsed : Nat) :
    List NodeInfo :=
  match nodes with
  | [] => []
  | n :: rest =>
    if n.engine = eng then n.record_execution elapsed :: rest
    else n :: recordOn rest eng elapsed

/-- The tail of a successful SELECT: look up the node owning the serving
engine, record the latency sample against it, and attach its name as the
`served_by` metadata. -/
def selectFinish (nodes : List NodeInfo) (eng : Nat) (rows : List Row)
    (elapsed : Nat) : SelectResult :=
  match nodes.find? fun n => n.engine == eng with
  | some nd => ⟨.served rows (some nd.name), recordOn nodes eng elapsed⟩
  | none => ⟨.served rows none, nodes⟩

/-- The SELECT branch of `ProxyConnection.execute`: connect to the routed
target engine (an `OperationalError` escaping the scope becomes
`NoAvailableNodesError("RETRY")`; any other exception propagates), execute,
on failure run the retry loop over the remaining enabled nodes, and
re-raise the original exception when every retry fails. -/
def ProxyConnection.executeSelect (connectR : Nat → ConnOutcome)
    (execR : Nat → ExecOutcome) (nodes : List NodeInfo) (target : Nat)
    (elapsed : Nat) : SelectResult :=
  match connectR target with
  | .opErr => ⟨.noAvailable "RETRY", nodes⟩
  | .otherErr => ⟨.raisedOther, nodes⟩
  | .ok =>
    match execR target with
    | .ok rows => selectFinish nodes target rows elapsed
    | .opErr =>
      match retryLoop connectR execR (triedName nodes target) nodes with
      | some (n, rows) => selectFinish nodes n.engine rows elapsed
      | none => ⟨.noAvailable "RETRY", nodes⟩
    | .otherErr =>
      match retryLoop connectR execR (triedName nodes target) nodes with
      | some (n, rows) => selectFinish nodes n.engine rows elapsed
      | none => ⟨.raisedOther, nodes⟩

/-- A node the retry loop passes over: skipped as already tried or
disabled, or failing its connect or its execute. -/
def skipOrFail (connectR : Nat → ConnOutcome) (execR : Nat → ExecOutcome)
    (tried : Option String) (n : NodeInfo) : Prop :=
  tried = some n.name ∨ n.enabled = false ∨ connectR n.engine ≠ .ok ∨
    ∀ r, execR n.engine ≠ .ok r

theorem retryLoop_none (connectR : Nat → ConnOutcome)
    (execR : Nat → ExecOutcome) (tried : Option String) :
    ∀ nodes : List NodeInfo,
      (∀ n ∈ nodes, skipOrFail connectR execR tried n) →
      retryLoop connectR execR tried nodes = none := by
  intro nodes
  induction nodes with
  | nil => intro _; rfl
  | cons n rest ih =>
    intro h
    have hrest := fun m hm => h m (List.mem_cons_of_mem n hm)
    rcases h n (List.mem_cons_self n rest) with h1 | h1 | h1 | h1
    · rw [retryLoop, if_pos (Or.inl h1)]
      exact ih hrest
    · rw [retryLoop, if_pos (Or.inr h1)]
      exact ih hrest
    · rw [retryLoop]
      split
      · exact ih hrest
      · cases hc : connectR n.engine with
        | ok => exact absurd hc h1
        | opErr => simp [ih hrest]
        | otherErr => simp [ih hrest]
    · rw [retryLoop]
      split
      · exact ih hrest
      · cases hc : connectR n.engine with
        | ok =>
          cases he : execR n.engine with
          | ok r => exact absurd he (h1 r)
          | opErr => simp [ih hrest]
          | otherErr => simp [ih hrest]
        | opErr => simp [ih hrest]
        | otherErr => simp [ih hrest]

theorem retryLoop_first_success (connectR : Nat → ConnOutcome)
    (execR : Nat → ExecOutcome) (tried : Option String) :
    ∀ (pre : List NodeInfo) (n : NodeInfo) (post : List NodeInfo)
      (rows : List Row),
      (∀ m ∈ pre, skipOrFail connectR execR tried m) →
      ¬(tried = some n.name ∨ n.enabled = false) →
      connectR n.engine = .ok → execR n.engine = .ok rows →
      retryLoop connectR execR tried (pre ++ n :: post) = some (n, rows) := by
  intro pre
  induction pre with
  | nil =>
    intro n post rows _ helig hconn hexec
    show retryLoop connectR execR tried (n :: post) = _
    rw [retryLoop, if_neg helig, hconn, hexec]
  | cons m pre ih =>
    intro n post rows hpre helig hconn hexec
    have hmt := hpre m (List.mem_cons_self m pre)
    have hrest := fun q hq => hpre q (List.mem_cons_of_mem m hq)
    show retryLoop connectR execR tried (m :: (pre ++ n :: post)) = _
    rcases hmt with h1 | h1 | h1 | h1
    · simp only [retryLoop, if_pos (Or.inl h1)]
      exact ih n post rows hrest helig hconn hexec
    · simp only [retryLoop, if_pos (Or.inr h1)]
      exact ih n post rows hrest helig hconn hexec
    · rw [retryLoop]
      split
      · exact ih n post rows hrest helig hconn hexec
      · cases hc : connectR m.engine with
        | ok => exact absurd hc h1
        | opErr => simp [ih n post rows hrest helig hconn hexec]
        | otherErr => simp [ih n post rows hrest helig hconn hexec]
    · rw [retryLoop]
      split
      · exact ih n post rows hrest helig hconn hexec
      · cases hc : connectR m.engine with
        | ok =>
          cases he : execR m.engine with
          | ok r => exact absurd he (h1 r)
          | opErr => simp [ih n post rows hrest helig hconn hexec]
          | otherErr => simp [ih n post rows hrest helig hconn hexec]
        | opErr => simp [ih n post rows hrest helig hconn hexec]
        | otherErr => simp [ih n post rows hrest helig hconn hexec]

theorem find?_engine_self (nodes : List NodeInfo)
    (hnd : (nodes.map NodeInfo.engine).Nodup) (n : NodeInfo)
    (hn : n ∈ nodes) :
    nodes.find? (fun m => m.engine == n.engine) = some n := by
  induction nodes with
  | nil => simp at hn
  | cons a rest ih =>
    rcases List.mem_cons.mp hn with rfl | hnr
    · rw [List.find?_cons_of_pos _ (by simp)]
    · have ha : a.engine ∉ rest.map NodeInfo.engine :=
        (List.nodup_cons.mp hnd).1
      have hne : a.engine ≠ n.engine := by
        intro he
        exact ha (he ▸ List.mem_map_of_mem NodeInfo.engine hnr)
      rw [List.find?_cons_of_neg _ (by simp [hne]),
        ih (List.nodup_cons.mp hnd).2 hnr]

/-- C5, counterexample: when connecting to the chosen node's engine raises
an `OperationalError` (the normal symptom of a down database), the code
raises `NoAvailableNodesError("RETRY")` immediately — the other enabled,
healthy node is never tried and no rows are served, contradicting the
claimed failover to the remaining enabled nodes. -/
theorem c5_counterexample :
    ProxyConnection.executeSelect
      (fun e => if e = 1 then .opErr else .ok)
      (fun _ => .ok [[("id", .int 1)]])
      [⟨"db1", 1, true, 1, 0, 0⟩, ⟨"db2", 2, true, 1, 0, 0⟩] 1 7 =
      ⟨.noAvailable "RETRY",
       [⟨"db1", 1, true, 1, 0, 0⟩, ⟨"db2", 2, true, 1, 0, 0⟩]⟩ ∧
    ((⟨"db2", 2, true, 1, 0, 0⟩ : NodeInfo).enabled = true ∧
     (fun e => if e = 1 then ConnOutcome.opErr else ConnOutcome.ok) 2 =
       .ok ∧
     (fun _ : Nat => ExecOutcome.ok [[("id", SqlValue.int 1)]]) 2 =
       .ok [[("id", .int 1)]]) ∧
    SelectOutcome.noAvailable "RETRY" ≠
      SelectOutcome.served [[("id", .int 1)]] (some "db2") := by decide

/-- C5 (amended): with a successful connection to the chosen node, a
successful execute serves from it with the latency sample recorded against
it; if the execute fails with an operational error, the remaining enabled
nodes are tried in registry order (the chosen node is skipped via the
`tried` set) and the first success supplies the rows, with the sample
recorded against the serving node; if every candidate is skipped or fails,
the read fails with `NoAvailableNodes("RETRY")`.  A connection failure on
the chosen node, however, surfaces as `NoAvailableNodes("RETRY")` at once,
with no retries. -/
theorem c5_amended (connectR : Nat → ConnOutcome) (execR : Nat → ExecOutcome)
    (nodes : List NodeInfo) (target : Nat) (elapsed : Nat) :
    (connectR target = .opErr →
      ProxyConnection.executeSelect connectR execR nodes target elapsed =
        ⟨.noAvailable "RETRY", nodes⟩) ∧
    (connectR target = .ok →
      (∀ rows nd, execR target = .ok rows →
        nodes.find? (fun m => m.engine == target) = some nd →
        ProxyConnection.executeSelect connectR execR nodes target elapsed =
          ⟨.served rows (some nd.name), recordOn nodes target elapsed⟩) ∧
      (execR target = .opErr →
        (∀ pre n post rows, nodes = pre ++ n :: post →
          (∀ m ∈ pre,
            skipOrFail connectR execR (triedName nodes target) m) →
          ¬(triedName nodes target = some n.name ∨ n.enabled = false) →
          connectR n.engine = .ok → execR n.engine = .ok rows →
          (nodes.map NodeInfo.engine).Nodup →
          ProxyConnection.executeSelect connectR execR nodes target elapsed =
            ⟨.served rows (some n.name), recordOn nodes n.engine elapsed⟩) ∧
        ((∀ m ∈ nodes,
            skipOrFail connectR execR (triedName nodes target) m) →
          ProxyConnection.executeSelect connectR execR nodes target elapsed =
            ⟨.noAvailable "RETRY", nodes⟩))) := by
  refine ⟨?_, fun hconn => ⟨?_, fun hop => ⟨?_, ?_⟩⟩⟩
  · intro hc
    unfold ProxyConnection.executeSelect
    rw [hc]
  · intro rows nd hexec hfind
    unfold ProxyConnection.executeSelect
    rw [hconn, hexec]
    unfold selectFinish
    rw [hfind]
  · intro pre n post rows hsplit hpre helig hcn hex hnd
    unfold ProxyConnection.executeSelect
    rw [hconn, hop]
    have hr : retryLoop connectR execR (triedName nodes target)
        (pre ++ n :: post) = some (n, rows) :=
      retryLoop_first_success connectR execR _ pre n post rows hpre helig
        hcn hex
    rw [← hsplit] at hr
    rw [hr]
    have hnmem : n ∈ nodes := by
      rw [hsplit]
      exact List.mem_append_right pre (List.mem_cons_self n post)
    show selectFinish nodes n.engine rows elapsed = _
    unfold selectFinish
    rw [find?_engine_self nodes hnd n hnmem]
  · intro hall
    unfold ProxyConnection.executeSelect
    rw [hconn, hop, retryLoop_none connectR execR _ nodes hall]

/-- C5, witness for the amended theorem: the chosen node connects but its
execute raises operationally; db2, the one remaining enabled node, serves
the rows and receives the latency sample. -/
theorem c5_witness :
    ProxyConnection.executeSelect
      (fun _ => .ok)
      (fun e => if e = 1 then .opErr else .ok [[("id", .int 1)]])
      [⟨"db1", 1, true, 1, 0, 0⟩, ⟨"db2", 2, true, 1, 0, 0⟩] 1 7 =
      ⟨.served [[("id", .int 1)]] (some "db2"),
       recordOn [⟨"db1", 1, true, 1, 0, 0⟩, ⟨"db2", 2, true, 1, 0, 0⟩] 2 7⟩ :=
  (((c5_amended (fun _ => .ok)
      (fun e => if e = 1 then .opErr else .ok [[("id", .int 1)]])
      [⟨"db1", 1, true, 1, 0, 0⟩, ⟨"db2", 2, true, 1, 0, 0⟩] 1 7).2
    rfl).2 (by decide)).1
    [⟨"db1", 1, true, 1, 0, 0⟩] ⟨"db2", 2, true, 1, 0, 0⟩ [] [[("id", .int 1)]]
    rfl
    (fun m hm => by
      rcases List.mem_singleton.mp hm with rfl
      exact Or.inl (by decide))
    (by decide) rfl (by decide) (by decide)

example :
    recordOn [⟨"db1", 1, true, 1, 0, 0⟩, ⟨"db2", 2, true, 1, 0, 0⟩] 2 7 =
      [⟨"db1", 1, true, 1, 0, 0⟩, ⟨"db2", 2, true, 1, 7, 1⟩] := by decide
